import Mathlib

namespace EsrganEvup

/-!
Verification development for the ESRGAN video-upscaling batch orchestrator
(`run.py`).  The Python source is shallowly embedded: pure computations become
Lean functions over `ℚ`/`ℕ`/`List`, external subprocess invocations become an
explicit environment recording each call's outcome, and the observable actions
of a run (subprocess calls, progress reports, artifacts created and removed)
are collected in a trace record.
-/

/-! ## Batch planning

From `process_video` (run.py lines 479–484 and 526–529):

    if BATCH_SIZE == 0:
        batch_duration = duration
        num_batches = 1
    else:
        batch_duration = BATCH_SIZE
        num_batches = math.ceil(duration / BATCH_SIZE)
    ...
    for batch_index in range(num_batches):
        start_time_batch = batch_index * batch_duration
        current_duration = min(batch_duration, duration - start_time_batch)

Durations are real numbers in the source (Python floats); the embedding uses
exact rationals. -/

/-- The `num_batches` value as computed by `process_video`. -/
def numBatches (duration batchSize : ℚ) : ℕ :=
  if batchSize = 0 then 1 else Int.toNat ⌈duration / batchSize⌉

/-- The `batch_duration` value as computed by `process_video`. -/
def batchLen (duration batchSize : ℚ) : ℚ :=
  if batchSize = 0 then duration else batchSize

/-- The ordered list of `(start_time_batch, current_duration)` pairs produced by
the submission loop of `process_video`. -/
def planBatches (duration batchSize : ℚ) : List (ℚ × ℚ) :=
  (List.range (numBatches duration batchSize)).map
    (fun i => ((i : ℚ) * batchLen duration batchSize,
               min (batchLen duration batchSize)
                 (duration - (i : ℚ) * batchLen duration batchSize)))

/-! ## Scheduler submission loop

From `process_video` (run.py lines 524–542):

    with ThreadPoolExecutor(max_workers=MAX_CONCURRENT_BATCHES) as executor:
        for batch_index in range(num_batches):
            time.sleep(STAGGER_DELAY)  # Stagger batch extraction start.
            ...
            future = executor.submit(process_batch, ..., batch_index, ...)

The loop's observable behaviour is the ordered event trace of sleeps and
submissions it performs. -/

/-- An observable event of the submission loop: a stagger sleep of a given
delay, or the submission of the batch task with a given index. -/
inductive SchedEvent
  | sleep (d : ℚ)
  | submit (i : ℕ)
deriving DecidableEq

/-- True exactly on sleep events. -/
def SchedEvent.isSleep : SchedEvent → Bool
  | .sleep _ => true
  | .submit _ => false

/-- The submitted batch index, for submission events. -/
def SchedEvent.submitIdx : SchedEvent → Option ℕ
  | .sleep _ => none
  | .submit i => some i

/-- Event trace of the submission `for` loop over `range numBatches`: each
iteration sleeps the stagger delay, then submits that batch index. -/
def submissionLoop (staggerDelay : ℚ) : ℕ → List SchedEvent
  | 0 => []
  | n + 1 =>
      submissionLoop staggerDelay n ++
        [SchedEvent.sleep staggerDelay, SchedEvent.submit n]

/-! ## Format normalisation

From `is_integer_fps` and `convert_if_needed` (run.py lines 67–118).  The
probed fps is a real number in the source (Python float); the embedding uses
exact rationals.  Python's built-in `round` is round-half-to-even. -/

/-- Python's built-in `round` to an integer: round-half-to-even
(banker's rounding). -/
def pyRound (q : ℚ) : ℤ :=
  if q - (⌊q⌋ : ℚ) < 1 / 2 then ⌊q⌋
  else if 1 / 2 < q - (⌊q⌋ : ℚ) then ⌊q⌋ + 1
  else if ⌊q⌋ % 2 = 0 then ⌊q⌋ else ⌊q⌋ + 1

/-- The tolerance Python's default argument `tol = 1e-6` supplies at every
call site of `is_integer_fps`. -/
def fpsTol : ℚ := 1 / 1000000

/-- The function `is_integer_fps` (run.py lines 67–69): true when `fps` is within `tol` of
an integer. -/
def is_integer_fps (fps : ℚ) (tol : ℚ) : Bool :=
  decide (|fps - (pyRound fps : ℚ)| < tol)

/-- Python's `str.lower()`, character by character. -/
def strLower (s : String) : String :=
  String.mk (s.data.map Char.toLower)

/-- A source video file path, decomposed the way `convert_if_needed`
decomposes it: `path` is the full original path, `base` the stem produced by
`os.path.splitext(os.path.basename(...))[0]`, and `ext` the extension
(including the leading dot) produced by `os.path.splitext(...)[1]`. -/
structure VideoPath where
  path : String
  base : String
  ext : String
deriving DecidableEq

/-- The `converted_path` built by `convert_if_needed`
(`os.path.join(temp_dir, base_name + "_converted.mp4")`, with `/` as the
path separator). -/
def convertedPath (tempDir : String) (v : VideoPath) : String :=
  tempDir ++ "/" ++ v.base ++ "_converted.mp4"

/-- The action `convert_if_needed` performs, carrying the full ffmpeg argument
vector when a subprocess is run. -/
inductive ConvertAction
  | noConversion
  | remux (cmd : List String)
  | reencode (cmd : List String)
deriving DecidableEq

/-- The function `convert_if_needed` (run.py lines 72–118): returns the action performed
together with the path the function returns. -/
def convert_if_needed (tempDir : String) (v : VideoPath) (fps : ℚ) :
    ConvertAction × String :=
  let input_ext := strLower v.ext
  let output_fps : ℤ := pyRound fps
  let converted_path := convertedPath tempDir v
  if is_integer_fps fps fpsTol && input_ext == ".mp4" then
    (.noConversion, v.path)
  else if is_integer_fps fps fpsTol then
    if input_ext != ".mp4" then
      (.remux ["ffmpeg", "-hide_banner", "-loglevel", "error", "-y",
               "-i", v.path, "-c", "copy", converted_path],
       converted_path)
    else
      (.noConversion, v.path)
  else
    (.reencode ["ffmpeg", "-hide_banner", "-loglevel", "error", "-y",
                "-i", v.path, "-r", toString output_fps,
                "-c:v", "libx264", "-preset", "fast", "-crf", "18",
                converted_path],
     converted_path)

/-! ## Coordinator join loop and final concatenation list

From `process_video` (run.py lines 523 and 543–551):

    segment_files = [None] * num_batches
    ...
    for future in as_completed(future_to_index):
        batch_index = future_to_index[future]
        try:
            result = future.result()
            segment_files[batch_index] = result
            with progress_lock:
                batches_completed[0] += 1
        except Exception as exc:
            print(f"Batch ... generated an exception: ...")

and the concatenation-list construction (lines 569–574):

    for seg in segment_files:
        if seg is not None:
            f.write(f"file ...")
        else:
            print("Warning: A batch segment is missing and will be skipped.")

`as_completed` yields the futures in an arbitrary completion order, modelled
as an arbitrary permutation of index/outcome pairs. -/

/-- What a batch future delivers at the join point: `.error` when the worker
raised, otherwise `.ok` with the worker's returned value (where `none` models
a returned Python `None`). -/
abbrev BatchDelivery (α : Type) := Except Unit (Option α)

/-- True when the future resolved without raising. -/
def deliveryOk {α : Type} : BatchDelivery α → Bool
  | .ok _ => true
  | .error _ => false

/-- The value the segment-table slot holds after the join loop for a given
delivery: the worker's returned value, or null if the worker raised. -/
def resolvedSlot {α : Type} : BatchDelivery α → Option α
  | .ok v => v
  | .error _ => none

/-- One iteration of the join loop.  The state is the segment table, the
`batches_completed` counter, and (instrumentation) the log of slot indices
written so far. -/
def joinStep {α : Type} (st : List (Option α) × ℕ × List ℕ)
    (c : ℕ × BatchDelivery α) : List (Option α) × ℕ × List ℕ :=
  match c.2 with
  | .ok v => (st.1.set c.1 v, st.2.1 + 1, st.2.2 ++ [c.1])
  | .error _ => st

/-- The join loop over the completed futures, in completion order, starting
from `segment_files = [None] * num_batches` and `batches_completed = 0`. -/
def joinLoop {α : Type} (numB : ℕ) (comps : List (ℕ × BatchDelivery α)) :
    List (Option α) × ℕ × List ℕ :=
  comps.foldl joinStep (List.replicate numB none, 0, [])

/-- The final concatenation-list construction: the `file` entries written, in
table order, and the number of missing-segment warnings printed. -/
def buildConcatList {α : Type} (segs : List (Option α)) : List α × ℕ :=
  segs.foldl (fun acc s =>
    match s with
    | some p => (acc.1 ++ [p], acc.2)
    | none => (acc.1, acc.2 + 1)) ([], 0)

/-- The slot index a join iteration writes, if any. -/
def writeOf {α : Type} (c : ℕ × BatchDelivery α) : Option ℕ :=
  match c.2 with
  | .ok _ => some c.1
  | .error _ => none

/-- The canonical completion list: each batch index paired with its worker's
delivery, in index order.  Any actual completion order is a permutation of
this list. -/
def canonicalComps {α : Type} (numB : ℕ) (outcomes : ℕ → BatchDelivery α) :
    List (ℕ × BatchDelivery α) :=
  (List.range numB).map (fun i => (i, outcomes i))

/-! ## Frame-file parsing and the reassembly edit-list

From the reassembly phase of `process_batch` (run.py lines 413–433, and the
identical logic at 340–360 inside `do_reassembly`):

    frame_files = sorted(glob.glob(os.path.join(processed_dir, "frame_*.png")))
    frames = []
    for filepath in frame_files:
        filename = os.path.basename(filepath)
        try:
            frame_num = int(filename.split("frame_")[1].split(".png")[0])
            timestamp = (frame_num - 1) / output_fps
            frames.append((filepath, timestamp))
        except Exception as e:
            print(f"Error parsing frame index from {filename}: {e}")
    frames.sort(key=lambda x: x[1])
    ...
    for i, (filepath, timestamp) in enumerate(frames):
        if i < len(frames) - 1:
            duration_sec = 1.0 / output_fps
            ... duration duration_sec ...
        else:
            ... duration 0.000000 ...

File names are modelled by their basename (all frames of one batch live in
the same directory, and the code takes `os.path.basename` before parsing, so
only the basename matters for both parsing and relative lexical order). -/

/-- Python's code-point lexicographic string order (`str < str`), on the
character lists of two strings. -/
def charListLe : List Char → List Char → Bool
  | [], _ => true
  | _ :: _, [] => false
  | a :: as, b :: bs =>
      if a.toNat < b.toNat then true
      else if b.toNat < a.toNat then false
      else charListLe as bs

/-- The order `sorted(...)` uses on file-name strings. -/
def lexLe (a b : String) : Prop := charListLe a.data b.data = true

instance : DecidableRel lexLe := fun a b =>
  inferInstanceAs (Decidable (charListLe a.data b.data = true))

/-- The first occurrence of the (non-empty) separator `sep`: the part before
it and the part after it, or `none` when `sep` does not occur.  This is the
building block of Python's `str.split(sep)`: `split(sep)[0]` is the part
before the first occurrence (the whole string if none), and `split(sep)[1]`
runs from after the first occurrence to the second occurrence or the end. -/
def findSub (sep : List Char) : List Char → Option (List Char × List Char)
  | [] => if sep.isEmpty then some ([], []) else none
  | c :: rest =>
    if sep.isPrefixOf (c :: rest) then
      some ([], List.drop sep.length (c :: rest))
    else
      (findSub sep rest).map (fun p => (c :: p.1, p.2))

/-- Python's `s.split(sep)[1]` (`none` models the `IndexError` when `sep` does not
occur in `s`). -/
def splitSecond (sep : List Char) (l : List Char) : Option (List Char) :=
  match findSub sep l with
  | none => none
  | some (_, after) =>
    match findSub sep after with
    | none => some after
    | some (seg, _) => some seg

/-- Python's `s.split(sep)[0]`: the part before the first occurrence of `sep`, or all
of `s` when `sep` does not occur. -/
def splitFirst (sep : List Char) (l : List Char) : List Char :=
  match findSub sep l with
  | none => l
  | some (seg, _) => seg

/-- A non-empty all-digit character list, as a number (the core of Python's
`int(str)`; the additional acceptance of surrounding whitespace and of
underscores between digits is not modelled). -/
def digitsToNat (cs : List Char) : Option ℕ :=
  if cs.isEmpty then none
  else cs.foldl
    (fun acc c =>
      acc.bind (fun a => if c.isDigit then some (10 * a + (c.toNat - 48)) else none))
    (some 0)

/-- Python's `int(str)` on the split-off fragment: an optional sign followed
by digits. -/
def pyInt (cs : List Char) : Option ℤ :=
  match cs with
  | '-' :: rest => (digitsToNat rest).map (fun n => -(n : ℤ))
  | '+' :: rest => (digitsToNat rest).map (fun n => (n : ℤ))
  | _ => (digitsToNat cs).map (fun n => (n : ℤ))

/-- Python's `int(filename.split("frame_")[1].split(".png")[0])`, with the `try`
block's `except` (an `IndexError` from `[1]` or a `ValueError` from `int`)
modelled as `none`. -/
def parseFrameNum (filename : String) : Option ℤ :=
  match splitSecond ("frame_".data) filename.data with
  | none => none
  | some seg => pyInt (splitFirst (".png".data) seg)

/-- The `frames` list after the parsing `for` loop: the lexically sorted frame
files, each successfully parsed one paired with its presentation timestamp
`(frame_num - 1) / output_fps`. -/
def frameEntries (fps : ℚ) (files : List String) : List (String × ℚ) :=
  (List.insertionSort lexLe files).filterMap
    (fun fp => (parseFrameNum fp).map (fun n => (fp, ((n : ℚ) - 1) / fps)))

/-- The key order of `frames.sort(key=lambda x: x[1])`. -/
def tsLE : (String × ℚ) → (String × ℚ) → Prop := fun x y => x.2 ≤ y.2

instance : DecidableRel tsLE := fun x y =>
  inferInstanceAs (Decidable (x.2 ≤ y.2))

instance : IsTotal (String × ℚ) tsLE := ⟨fun a b => le_total a.2 b.2⟩

instance : IsTrans (String × ℚ) tsLE := ⟨fun _ _ _ hab hbc => le_trans hab hbc⟩

/-- The `frames` list after `frames.sort(key=lambda x: x[1])` (a stable sort
by timestamp, modelled by insertion sort, which is stable). -/
def sortedFrames (fps : ℚ) (files : List String) : List (String × ℚ) :=
  List.insertionSort tsLE (frameEntries fps files)

/-- The edit-list written to the concat file: each frame file with its
duration — `1/output_fps` for every entry except the last, which gets `0`. -/
def editList (fps : ℚ) (files : List String) : List (String × ℚ) :=
  let frames := sortedFrames fps files
  frames.enum.map
    (fun p => (p.2.1, if p.1 < frames.length - 1 then 1 / fps else 0))

/-! ## The batch worker `process_batch`

From `process_batch` (run.py lines 180–454).  External subprocess outcomes are
an explicit environment; a run's observable behaviour (subprocess calls,
direct progress reports, artifacts created and removed, the edit-list, the
returned value) is collected in a trace.  The 0.5-second progress-poller
thread (lines 241–254) is concurrent background behaviour and is not part of
these traces; `progress` records the direct `update_progress` calls the
worker itself makes. -/

/-- The temporary artifacts a batch run can create, identified by role (the
concrete paths are all derived from the unique `batch_id`). -/
inductive Artifact
  | extractionDir
  | processedDir
  | reassemblyDir
  | placeholderFile
  | segmentFile
  | concatListFile
deriving DecidableEq

/-- An external subprocess invocation of `process_batch`, with the arguments
the claims are about: the ffmpeg frame extraction (lines 199–210), the ffmpeg
black-filler placeholder synthesis (the three structurally identical command
builds at 219–229, 292–302, 323–333/393–403), one invocation of the
RealESRGAN engine (lines 258–275), and the ffmpeg concat of the edit-list
(lines 362–374 and 435–447), where `args` is everything appended after
`-r output_fps` and before the output path. -/
inductive BatchCall
  | extractFrames (startT dur : ℚ) (fps : ℤ)
  | makePlaceholder (dur : ℚ) (fps : ℤ)
  | runEsrgan
  | concatFrames (fps : ℤ) (args : List String)
deriving DecidableEq

/-- True exactly on engine invocations. -/
def isEsrganCall : BatchCall → Bool
  | .runEsrgan => true
  | _ => false

/-- True exactly on edit-list concat invocations. -/
def isConcatCall : BatchCall → Bool
  | .concatFrames _ _ => true
  | _ => false

/-- The configuration constants `process_batch` reads:
`MAX_CONCURRENT_BATCHES` and `FFMPEG_REASSEMBLY_ARGS.strip().split()` (the
empty list when the string is blank, matching the `!= ""` guard). -/
structure BatchConfig where
  maxConcurrentBatches : ℕ
  ffmpegReassemblyArgs : List String
deriving DecidableEq

/-- Outcomes of the external calls one `process_batch` run can make — the
environment of the embedding.  `extractedCount` is the number of
`frame_*.png` files the extraction glob finds (line 215); `esrganOk k` is
whether the engine's `k`-th invocation (0-based) exits successfully within
the timeout; the `placeholderOk*` fields are the exit statuses of the
placeholder ffmpeg call in the three branches that can run it (too few
frames / all attempts failed / no processed frames); `processedFiles` is the
glob of `frame_*.png` basenames in the processed directory after upscaling;
`concatOk` is the exit status of the edit-list concat. -/
structure BatchEnv where
  extractOk : Bool
  extractedCount : ℕ
  placeholderOkFew : Bool
  esrganOk : ℕ → Bool
  placeholderOkFail : Bool
  processedFiles : List String
  placeholderOkNoFrames : Bool
  concatOk : Bool

/-- The value `process_batch` returns: a media-file path, Python `None`, or
(serial-pool mode) the `(result_container, reassembly_thread)` tuple, shown
together with the value the container holds once the thread is joined. -/
inductive BatchReturn
  | path (a : Artifact)
  | failed
  | deferredHandle (r : Option Artifact)
deriving DecidableEq

/-- Observable trace of one `process_batch` run. -/
structure BatchTrace where
  ret : BatchReturn
  calls : List BatchCall
  created : List Artifact
  removed : List Artifact
  progress : List ℕ
  edits : Option (List (String × ℚ))
  reassemblyEntered : Bool

/-- The retry `while` loop (lines 269–287): `attempt` starts at `0` and
`max_attempts = 3`; the loop runs while `attempt < max_attempts and not
success`; each iteration invokes the engine once; on success the loop stops
without touching `attempt`; on timeout or non-zero exit `attempt` is
incremented.  Here `remaining = max_attempts - attempt` and `calls` counts
invocations made so far; returns (total invocations, success). -/
def esrganLoop (ok : ℕ → Bool) (calls : ℕ) : ℕ → ℕ × Bool
  | 0 => (calls, false)
  | r + 1 =>
    if ok calls then (calls + 1, true)
    else esrganLoop ok (calls + 1) r

/-- The constant `max_attempts` (line 269). -/
def max_attempts : ℕ := 3

/-- The whole retry loop from its initial state. -/
def esrganRun (ok : ℕ → Bool) : ℕ × Bool :=
  esrganLoop ok 0 max_attempts

/-- Partial trace of a reassembly task. -/
structure ReasmOut where
  result : Option Artifact
  calls : List BatchCall
  created : List Artifact
  removed : List Artifact
  progress : List ℕ
  edits : Option (List (String × ℚ))

/-- The nested function `do_reassembly` (run.py lines 318–380), the decoupled reassembly task run
on its own thread in serial-pool mode, operating on the frames moved to the
reassembly directory.  Its no-frames fallback (lines 320–339) returns the
placeholder path (or `None` on failure) without removing any directory and
without reporting progress; its normal path builds the edit-list, runs the
concat with the configured reassembly args followed by the hard-coded
`-y -c:v libx264 -pix_fmt yuv420p` (line 372), removes the list file and the
reassembly directory, and returns the segment path regardless of the concat
exit status. -/
def do_reassembly (cfg : BatchConfig) (env : BatchEnv) (dur : ℚ) (fps : ℤ) :
    ReasmOut :=
  if env.processedFiles.isEmpty then
    if env.placeholderOkNoFrames then
      { result := some .placeholderFile
        calls := [.makePlaceholder dur fps]
        created := [.placeholderFile]
        removed := []
        progress := []
        edits := none }
    else
      { result := none
        calls := [.makePlaceholder dur fps]
        created := []
        removed := []
        progress := []
        edits := none }
  else
    { result := some .segmentFile
      calls := [.concatFrames fps
        (cfg.ffmpegReassemblyArgs ++ ["-y", "-c:v", "libx264", "-pix_fmt", "yuv420p"])]
      created := [.concatListFile] ++ (if env.concatOk then [.segmentFile] else [])
      removed := [.concatListFile, .reassemblyDir]
      progress := []
      edits := some (editList (fps : ℚ) env.processedFiles) }

/-- The function `process_batch` (run.py lines 180–454): directory creation, extraction,
the frame-count gate, the engine retry loop, and one of the three completion
paths (placeholder fallback, decoupled reassembly when
`MAX_CONCURRENT_BATCHES == 1`, or inline reassembly). -/
def processBatch (cfg : BatchConfig) (env : BatchEnv) (startT dur : ℚ)
    (fps : ℤ) : BatchTrace :=
  let baseCalls := [BatchCall.extractFrames startT dur fps]
  let baseCreated := [Artifact.extractionDir, Artifact.processedDir]
  if env.extractedCount < 2 then
    -- lines 215–238: too few frames → placeholder; on placeholder success
    -- delete both work dirs and report the extracted count; on failure
    -- return None with no cleanup and no report
    if env.placeholderOkFew then
      { ret := .path .placeholderFile
        calls := baseCalls ++ [.makePlaceholder dur fps]
        created := baseCreated ++ [.placeholderFile]
        removed := [.extractionDir, .processedDir]
        progress := [env.extractedCount]
        edits := none
        reassemblyEntered := false }
    else
      { ret := .failed
        calls := baseCalls ++ [.makePlaceholder dur fps]
        created := baseCreated
        removed := []
        progress := []
        edits := none
        reassemblyEntered := false }
  else
    let run := esrganRun env.esrganOk
    let esrganCalls := List.replicate run.1 BatchCall.runEsrgan
    if run.2 = false then
      -- lines 289–310: all attempts failed → placeholder fallback
      if env.placeholderOkFail then
        { ret := .path .placeholderFile
          calls := baseCalls ++ esrganCalls ++ [.makePlaceholder dur fps]
          created := baseCreated ++ [.placeholderFile]
          removed := [.extractionDir, .processedDir]
          progress := []
          edits := none
          reassemblyEntered := false }
      else
        { ret := .failed
          calls := baseCalls ++ esrganCalls ++ [.makePlaceholder dur fps]
          created := baseCreated
          removed := []
          progress := []
          edits := none
          reassemblyEntered := false }
    else if cfg.maxConcurrentBatches = 1 then
      -- lines 313–386: move processed → reassembly dir, run do_reassembly on
      -- a thread, delete the extraction dir, return the deferred handle
      let r := do_reassembly cfg env dur fps
      { ret := .deferredHandle r.result
        calls := baseCalls ++ esrganCalls ++ r.calls
        created := baseCreated ++ [.reassemblyDir] ++ r.created
        removed := [.processedDir] ++ r.removed ++ [.extractionDir]
        progress := r.progress
        edits := r.edits
        reassemblyEntered := true }
    else if env.processedFiles.isEmpty then
      -- lines 389–412: inline no-frames fallback — placeholder; on success
      -- delete both work dirs and report the extracted count
      if env.placeholderOkNoFrames then
        { ret := .path .placeholderFile
          calls := baseCalls ++ esrganCalls ++ [.makePlaceholder dur fps]
          created := baseCreated ++ [.placeholderFile]
          removed := [.extractionDir, .processedDir]
          progress := [env.extractedCount]
          edits := none
          reassemblyEntered := true }
      else
        { ret := .failed
          calls := baseCalls ++ esrganCalls ++ [.makePlaceholder dur fps]
          created := baseCreated
          removed := []
          progress := []
          edits := none
          reassemblyEntered := true }
    else
      -- lines 413–454: inline reassembly — edit-list, concat with the
      -- configured args followed by `-y` only (line 445), cleanup, return
      -- the segment path regardless of the concat exit status
      { ret := .path .segmentFile
        calls := baseCalls ++ esrganCalls ++ [.concatFrames fps
          (cfg.ffmpegReassemblyArgs ++ ["-y"])]
        created := baseCreated ++ [.concatListFile]
          ++ (if env.concatOk then [.segmentFile] else [])
        removed := [.concatListFile, .extractionDir, .processedDir]
        progress := []
        edits := some (editList (fps : ℚ) env.processedFiles)
        reassemblyEntered := true }

/-! ## Job-level temporary artifacts and cleanup

From `process_video` (run.py lines 457–632).  The job submits one
`process_batch` per planned batch, joins the futures, resolves deferred
reassembly handles (lines 557–561), deletes the converted intermediate
(lines 563–564), writes the job-level segment list and concatenates it into
an audio-less intermediate (lines 567–590, returning early on failure),
merges audio (lines 601–617, returning early on failure), and finally
deletes the segment files, the list file, and the audio-less intermediate
(lines 619–625).  The final output file lives in the permanent `output`
directory and is not a temporary artifact.  The plan parameter is the
`(start, duration)` list the submission loop computes — `planBatches` of the
probed duration and the configured batch size. -/

/-- Temporary artifacts at job scope: each batch's artifacts tagged with its
index, plus the converted intermediate, the job-level segment list, and the
audio-less intermediate. -/
inductive JobArtifact
  | batchArt (i : ℕ) (a : Artifact)
  | convertedFile
  | segmentsListFile
  | noAudioFile
deriving DecidableEq

/-- The segment path a batch contributes after the coordinator's
deferred-handle join (lines 557–561): an immediate path as-is, `None` for a
failed batch, and the joined container value for a deferred handle. -/
def resolveReturn : BatchReturn → Option Artifact
  | .path a => some a
  | .failed => none
  | .deferredHandle r => r

/-- Environment of one `process_video` run past conversion: each batch's
subprocess environment, and the exit statuses of the job-level concat and of
the audio merge. -/
structure VideoEnv where
  batchEnvs : ℕ → BatchEnv
  concatJobOk : Bool
  mergeOk : Bool

/-- The per-batch traces of a job, indexed by batch index, for the plan the
submission loop computed. -/
def jobTraces (cfg : BatchConfig) (venv : VideoEnv) (plan : List (ℚ × ℚ))
    (fps : ℤ) : List (ℕ × BatchTrace) :=
  plan.enum.map
    (fun p => (p.1, processBatch cfg (venv.batchEnvs p.1) p.2.1 p.2.2 fps))

/-- The resolved segment table, as job artifacts. -/
def jobSegments (cfg : BatchConfig) (venv : VideoEnv) (plan : List (ℚ × ℚ))
    (fps : ℤ) : List (Option JobArtifact) :=
  (jobTraces cfg venv plan fps).map
    (fun p => (resolveReturn p.2.ret).map (JobArtifact.batchArt p.1))

/-- All temporary artifacts the job run creates: every batch's creations,
the converted intermediate when conversion produced one, the segment list
file (always written, line 569), and the audio-less intermediate when the
job-level concat succeeds. -/
def jobCreated (cfg : BatchConfig) (venv : VideoEnv) (convCreated : Bool)
    (plan : List (ℚ × ℚ)) (fps : ℤ) : List JobArtifact :=
  (jobTraces cfg venv plan fps).flatMap
    (fun p => p.2.created.map (JobArtifact.batchArt p.1))
  ++ (if convCreated then [JobArtifact.convertedFile] else [])
  ++ [JobArtifact.segmentsListFile]
  ++ (if venv.concatJobOk then [JobArtifact.noAudioFile] else [])

/-- All temporary artifacts the job run removes: every batch's removals, the
converted intermediate (removed before concatenation, lines 563–564), and —
only when both the concat and the merge succeed, since both failure paths
`return` early — the existing segment files, the list file, and the
audio-less intermediate (lines 619–625). -/
def jobRemoved (cfg : BatchConfig) (venv : VideoEnv) (convCreated : Bool)
    (plan : List (ℚ × ℚ)) (fps : ℤ) : List JobArtifact :=
  (jobTraces cfg venv plan fps).flatMap
    (fun p => p.2.removed.map (JobArtifact.batchArt p.1))
  ++ (if convCreated then [JobArtifact.convertedFile] else [])
  ++ (if venv.concatJobOk then
        (if venv.mergeOk then
          (jobSegments cfg venv plan fps).reduceOption
            ++ [JobArtifact.segmentsListFile, JobArtifact.noAudioFile]
        else [])
      else [])

/-- The temporary artifacts still existing when `process_video` returns. -/
def jobLeftovers (cfg : BatchConfig) (venv : VideoEnv) (convCreated : Bool)
    (plan : List (ℚ × ℚ)) (fps : ℤ) : List JobArtifact :=
  (jobCreated cfg venv convCreated plan fps).filter
    (fun a => decide (a ∉ jobRemoved cfg venv convCreated plan fps))

/-- A batch environment in which every external placeholder synthesis
succeeds and, in serial-pool mode, at least one processed frame survives
(the decoupled no-frames fallback never removes the reassembly directory). -/
def BatchEnv.allOk (cfg : BatchConfig) (env : BatchEnv) : Prop :=
  env.placeholderOkFew = true ∧ env.placeholderOkFail = true ∧
  env.placeholderOkNoFrames = true ∧
  (cfg.maxConcurrentBatches = 1 → env.processedFiles ≠ [])

theorem numBatches_pos_of_pos {D L : ℚ} (hD : 0 < D) (hL : 0 < L) :
    0 < numBatches D L := by
  have h₁ : 0 < D / L := div_pos hD hL
  have h₂ : 0 < ⌈D / L⌉ := Int.ceil_pos.mpr h₁
  simp only [numBatches, if_neg hL.ne']
  omega

theorem numBatches_cast {D L : ℚ} (hD : 0 < D) (hL : 0 < L) :
    ((numBatches D L : ℤ) : ℚ) = ((⌈D / L⌉ : ℤ) : ℚ) := by
  have h₂ : 0 < ⌈D / L⌉ := Int.ceil_pos.mpr (div_pos hD hL)
  simp only [numBatches, if_neg hL.ne']
  rw [Int.toNat_of_nonneg h₂.le]

/-- With `0 < L`, `D / L ≤ numBatches D L` (ceiling upper characterisation). -/
theorem div_le_numBatches {D L : ℚ} (hD : 0 < D) (hL : 0 < L) :
    D / L ≤ (numBatches D L : ℚ) := by
  have := Int.le_ceil (D / L)
  calc D / L ≤ ((⌈D / L⌉ : ℤ) : ℚ) := this
    _ = (numBatches D L : ℚ) := by
        have := numBatches_cast hD hL
        push_cast at this ⊢
        linarith

/-- With `0 < L`, `numBatches D L - 1 < D / L` (ceiling lower characterisation). -/
theorem numBatches_sub_one_lt {D L : ℚ} (hD : 0 < D) (hL : 0 < L) :
    (numBatches D L : ℚ) - 1 < D / L := by
  have h := Int.ceil_lt_add_one (D / L)
  have hc := numBatches_cast hD hL
  push_cast at hc
  rw [hc]
  push_cast at h
  linarith

/-- C1: For every duration `D > 0`: with configured batch length `L > 0` the
planner produces `⌈D/L⌉` batch specs where batch `i` (0-based) starts at `i*L`
with duration `min L (D - i*L)`; the specs tile `[0, D)` contiguously (each
batch's end is the next batch's start, the first start is `0`, the last end is
`D`, every duration is positive, hence no gaps or overlaps), and the last
batch's duration equals `D - L*(batchCount - 1)`.  With batch length `0`
exactly one spec is produced, starting at `0` with duration `D`. -/
theorem batch_planner_tiles (D L : ℚ) (hD : 0 < D) :
    (0 < L →
      planBatches D L =
        (List.range (numBatches D L)).map
          (fun i => ((i : ℚ) * L, min L (D - (i : ℚ) * L))) ∧
      numBatches D L = Int.toNat ⌈D / L⌉ ∧
      0 < numBatches D L ∧
      (∀ i, i < numBatches D L →
        0 < min L (D - (i : ℚ) * L) ∧
        (i : ℚ) * L + min L (D - (i : ℚ) * L) =
          (if i = numBatches D L - 1 then D else ((i : ℚ) + 1) * L)) ∧
      min L (D - ((numBatches D L : ℚ) - 1) * L) =
        D - L * ((numBatches D L : ℚ) - 1)) ∧
    planBatches D 0 = [(0, D)] := by
  constructor
  · intro hL
    have hn0 : 0 < numBatches D L := numBatches_pos_of_pos hD hL
    have hub : D / L ≤ (numBatches D L : ℚ) := div_le_numBatches hD hL
    have hlb : (numBatches D L : ℚ) - 1 < D / L := numBatches_sub_one_lt hD hL
    have hubD : D ≤ (numBatches D L : ℚ) * L := by
      rw [div_le_iff₀ hL] at hub; linarith
    have hlbD : ((numBatches D L : ℚ) - 1) * L < D := by
      rw [← lt_div_iff₀ hL]; exact hlb
    have hlast : min L (D - ((numBatches D L : ℚ) - 1) * L) =
        D - L * ((numBatches D L : ℚ) - 1) := by
      rw [min_eq_right (by nlinarith), mul_comm]
    refine ⟨?_, ?_, hn0, ?_, hlast⟩
    · simp only [planBatches, batchLen, if_neg hL.ne']
    · simp only [numBatches, if_neg hL.ne']
    · intro i hi
      by_cases hilast : i = numBatches D L - 1
      · have hcast : (i : ℚ) = (numBatches D L : ℚ) - 1 := by
          subst hilast
          push_cast [Nat.cast_sub hn0]
          ring
        rw [hcast]
        refine ⟨?_, ?_⟩
        · rw [hlast]; nlinarith
        · rw [if_pos hilast, hlast]; ring
      · have hi' : i + 1 < numBatches D L := by omega
        have hi'' : ((i : ℚ) + 1) < (numBatches D L : ℚ) := by
          exact_mod_cast Nat.cast_lt.mpr hi'
        have hstep : ((i : ℚ) + 1) * L < D := by
          have : ((i : ℚ) + 1) ≤ (numBatches D L : ℚ) - 1 := by
            have : (i : ℚ) + 1 + 1 ≤ (numBatches D L : ℚ) := by
              exact_mod_cast Nat.succ_le_of_lt hi'
            linarith
          calc ((i : ℚ) + 1) * L ≤ ((numBatches D L : ℚ) - 1) * L := by nlinarith
            _ < D := hlbD
        have hmin : min L (D - (i : ℚ) * L) = L := by
          rw [min_eq_left]; nlinarith
        rw [hmin, if_neg hilast]
        exact ⟨hL, by ring⟩
  · simp [planBatches, numBatches, batchLen, List.range_succ]

/-- Witness for C1 at the concrete input `D = 5`, `L = 2` (hypothesis `0 < 5`
discharged; the batch-length-0 clause evaluated). -/
theorem batch_planner_tiles_witness :
    (0 : ℚ) < 5 ∧ planBatches 5 0 = [(0, 5)] :=
  ⟨by norm_num, (batch_planner_tiles 5 2 (by norm_num)).2⟩

theorem submissionLoop_length (d : ℚ) (n : ℕ) :
    (submissionLoop d n).length = 2 * n := by
  induction n with
  | zero => rfl
  | succ k ih => simp [submissionLoop, ih]; omega

/-- C8: Batch tasks are submitted in ascending index order; every sleep in
the trace is of the configured stagger delay; a job with `n` batches performs
exactly `n` stagger sleeps; and for every batch `i` the submission of batch `i`
occurs at trace position `2*i+1`, strictly after exactly `i+1` stagger sleeps —
in particular the first submission (`i = 0`) is preceded by a stagger sleep,
unconditionally, regardless of pool size or batch count. -/
theorem scheduler_stagger (n : ℕ) (d : ℚ) :
    (submissionLoop d n).filterMap SchedEvent.submitIdx = List.range n ∧
    (submissionLoop d n).countP SchedEvent.isSleep = n ∧
    (submissionLoop d n).filter SchedEvent.isSleep =
      List.replicate n (SchedEvent.sleep d) ∧
    (∀ i, i < n →
      (submissionLoop d n)[2 * i + 1]? = some (SchedEvent.submit i) ∧
      ((submissionLoop d n).take (2 * i + 1)).countP SchedEvent.isSleep
        = i + 1) := by
  induction n with
  | zero => refine ⟨rfl, rfl, rfl, ?_⟩; intro i hi; omega
  | succ k ih =>
    obtain ⟨ih₁, ih₂, ih₃, ih₄⟩ := ih
    refine ⟨?_, ?_, ?_, ?_⟩
    · simp [submissionLoop, List.filterMap_append, ih₁, List.range_succ,
        SchedEvent.submitIdx]
    · simp [submissionLoop, List.countP_append, ih₂, SchedEvent.isSleep]
    · simp [submissionLoop, List.filter_append, ih₃, SchedEvent.isSleep,
        List.replicate_succ']
    · intro i hi
      rcases Nat.lt_succ_iff_lt_or_eq.mp hi with hik | hik
      · have hlen : 2 * i + 1 < (submissionLoop d k).length := by
          rw [submissionLoop_length]; omega
        constructor
        · rw [submissionLoop, List.getElem?_append_left hlen]
          exact (ih₄ i hik).1
        · rw [submissionLoop, List.take_append_of_le_length hlen.le]
          exact (ih₄ i hik).2
      · subst hik
        have hlen : (submissionLoop d i).length = 2 * i := submissionLoop_length d i
        constructor
        · rw [submissionLoop, List.getElem?_append_right (by omega)]
          simp [hlen]
        · rw [submissionLoop, List.take_append_eq_append_take, hlen]
          have h1 : 2 * i + 1 - 2 * i = 1 := by omega
          rw [List.take_of_length_le (by omega), h1]
          simp [List.countP_append, ih₂, SchedEvent.isSleep]

/-- Witness for C8 at the concrete input `n = 3`, `d = 10`, `i = 2`
(the inner bound `2 < 3` discharged). -/
theorem scheduler_stagger_witness :
    (submissionLoop 10 3)[2 * 2 + 1]? = some (SchedEvent.submit 2) :=
  ((scheduler_stagger 3 10).2.2.2 2 (by norm_num)).1

/-- The rounding `pyRound` always produces a nearest integer. -/
theorem pyRound_nearest (q : ℚ) : |q - (pyRound q : ℚ)| ≤ 1 / 2 := by
  have h0 : 0 ≤ q - (⌊q⌋ : ℚ) := by have := Int.floor_le q; linarith
  have h1 : q - (⌊q⌋ : ℚ) < 1 := by have := Int.lt_floor_add_one q; linarith
  unfold pyRound
  by_cases hlt : q - (⌊q⌋ : ℚ) < 1 / 2
  · rw [if_pos hlt, abs_le]; constructor <;> linarith
  · rw [if_neg hlt]
    by_cases hgt : 1 / 2 < q - (⌊q⌋ : ℚ)
    · rw [if_pos hgt, abs_le]; push_cast; constructor <;> linarith
    · rw [if_neg hgt]
      have heq : q - (⌊q⌋ : ℚ) = 1 / 2 := by linarith
      by_cases hev : ⌊q⌋ % 2 = 0
      · rw [if_pos hev, abs_le]; constructor <;> linarith
      · rw [if_neg hev, abs_le]; push_cast; constructor <;> linarith

/-- C7: `convert_if_needed` implements the normaliser decision table: with
integer fps (within the `1e-6` tolerance) and target container (`.mp4`) the
original path is returned unchanged with no subprocess; with integer fps and a
different container the file is remuxed by stream copy (`-c copy`, no
re-encode) into the target `.mp4` container; with non-integer fps the video is
re-encoded at the nearest-integer fps (`-r`, with `|fps - rounded| ≤ 1/2`) with
the fast preset (`-preset fast`) and fixed quality target (`-crf 18`) into the
target `.mp4` container. -/
theorem convert_if_needed_table (tempDir : String) (v : VideoPath) (fps : ℚ) :
    (is_integer_fps fps fpsTol = true → strLower v.ext = ".mp4" →
      convert_if_needed tempDir v fps = (.noConversion, v.path)) ∧
    (is_integer_fps fps fpsTol = true → strLower v.ext ≠ ".mp4" →
      convert_if_needed tempDir v fps =
        (.remux ["ffmpeg", "-hide_banner", "-loglevel", "error", "-y",
                 "-i", v.path, "-c", "copy", convertedPath tempDir v],
         convertedPath tempDir v)) ∧
    (is_integer_fps fps fpsTol = false →
      convert_if_needed tempDir v fps =
        (.reencode ["ffmpeg", "-hide_banner", "-loglevel", "error", "-y",
                    "-i", v.path, "-r", toString (pyRound fps),
                    "-c:v", "libx264", "-preset", "fast", "-crf", "18",
                    convertedPath tempDir v],
         convertedPath tempDir v) ∧
      |fps - (pyRound fps : ℚ)| ≤ 1 / 2) := by
  refine ⟨?_, ?_, ?_⟩
  · intro hint hext
    simp [convert_if_needed, hint, hext]
  · intro hint hext
    simp [convert_if_needed, hint, hext]
  · intro hint
    exact ⟨by simp [convert_if_needed, hint], pyRound_nearest fps⟩

/-- Witness for C7: the remux branch at the concrete input `fps = 30`,
`ext = ".mkv"` (both hypotheses discharged by evaluation). -/
theorem convert_if_needed_table_witness :
    convert_if_needed "/tmp" ⟨"/in/movie.mkv", "movie", ".mkv"⟩ 30 =
      (.remux ["ffmpeg", "-hide_banner", "-loglevel", "error", "-y",
               "-i", "/in/movie.mkv", "-c", "copy",
               "/tmp/movie_converted.mp4"],
       "/tmp/movie_converted.mp4") := by
  have h :=
    (convert_if_needed_table "/tmp" ⟨"/in/movie.mkv", "movie", ".mkv"⟩ 30).2.1
      (by norm_num [is_integer_fps, pyRound, fpsTol]) (by decide)
  simpa [convertedPath] using h

theorem buildConcatList_go {α : Type} (segs : List (Option α))
    (acc : List α × ℕ) :
    segs.foldl (fun acc s =>
      match s with
      | some p => (acc.1 ++ [p], acc.2)
      | none => (acc.1, acc.2 + 1)) acc =
    (acc.1 ++ segs.filterMap id, acc.2 + segs.countP Option.isNone) := by
  induction segs generalizing acc with
  | nil => simp
  | cons s rest ih =>
    cases s with
    | some p => simp [ih, List.countP_cons]
    | none => simp [ih, List.countP_cons]; omega

theorem buildConcatList_eq {α : Type} (segs : List (Option α)) :
    buildConcatList segs = (segs.filterMap id, segs.countP Option.isNone) := by
  simpa using buildConcatList_go segs ([], 0)

theorem joinGo_length {α : Type} (comps : List (ℕ × BatchDelivery α))
    (t : List (Option α)) (k : ℕ) (w : List ℕ) :
    (comps.foldl joinStep (t, k, w)).1.length = t.length := by
  induction comps generalizing t k w with
  | nil => rfl
  | cons c rest ih =>
    cases hc : c.2 with
    | ok v => simp [joinStep, hc, ih]
    | error e => simp [joinStep, hc, ih]

theorem joinGo_get {α : Type} (comps : List (ℕ × BatchDelivery α))
    (t : List (Option α)) (k : ℕ) (w : List ℕ)
    (hnd : (comps.map Prod.fst).Nodup) (i : ℕ) (hi : i < t.length) :
    (comps.foldl joinStep (t, k, w)).1[i]? =
      (match comps.find? (fun c => c.1 == i) with
       | some c =>
           (match c.2 with
            | .ok v => some v
            | .error _ => t[i]?)
       | none => t[i]?) := by
  induction comps generalizing t k w with
  | nil => simp
  | cons c rest ih =>
    obtain ⟨c1, c2⟩ := c
    have hjnd : c1 ∉ rest.map Prod.fst := by
      have h := hnd
      simp only [List.map_cons, List.nodup_cons] at h
      exact h.1
    have hrestnd : (rest.map Prod.fst).Nodup := by
      have h := hnd
      simp only [List.map_cons, List.nodup_cons] at h
      exact h.2
    by_cases hji : c1 = i
    · subst hji
      have hniln : rest.find? (fun c => c.1 == c1) = none := by
        rw [List.find?_eq_none]
        intro x hx h
        apply hjnd
        simp only [beq_iff_eq] at h
        rw [← h]
        exact List.mem_map_of_mem Prod.fst hx
      cases c2 with
      | ok v =>
        rw [List.foldl_cons,
          show joinStep (t, k, w) (c1, Except.ok v)
            = (t.set c1 v, k + 1, w ++ [c1]) from rfl,
          ih (t.set c1 v) (k + 1) (w ++ [c1]) hrestnd
            (by rw [List.length_set]; exact hi),
          hniln]
        simp [List.find?_cons, List.getElem?_set_self hi]
      | error e =>
        rw [List.foldl_cons,
          show joinStep (t, k, w) (c1, Except.error e) = (t, k, w) from rfl,
          ih t k w hrestnd hi, hniln]
        simp [List.find?_cons]
    · cases c2 with
      | ok v =>
        rw [List.foldl_cons,
          show joinStep (t, k, w) (c1, Except.ok v)
            = (t.set c1 v, k + 1, w ++ [c1]) from rfl,
          ih (t.set c1 v) (k + 1) (w ++ [c1]) hrestnd
            (by rw [List.length_set]; exact hi),
          List.getElem?_set_ne hji]
        simp [List.find?_cons, show (c1 == i) = false by simpa using hji]
      | error e =>
        rw [List.foldl_cons,
          show joinStep (t, k, w) (c1, Except.error e) = (t, k, w) from rfl,
          ih t k w hrestnd hi]
        simp [List.find?_cons, show (c1 == i) = false by simpa using hji]

theorem joinGo_counter {α : Type} (comps : List (ℕ × BatchDelivery α))
    (t : List (Option α)) (k : ℕ) (w : List ℕ) :
    (comps.foldl joinStep (t, k, w)).2.1 =
      k + comps.countP (fun c => deliveryOk c.2) := by
  induction comps generalizing t k w with
  | nil => simp
  | cons c rest ih =>
    cases hc : c.2 with
    | ok v =>
      simp [joinStep, hc, ih, List.countP_cons, deliveryOk]; omega
    | error e =>
      simp [joinStep, hc, ih, List.countP_cons, deliveryOk]

theorem joinGo_log {α : Type} (comps : List (ℕ × BatchDelivery α))
    (t : List (Option α)) (k : ℕ) (w : List ℕ) :
    (comps.foldl joinStep (t, k, w)).2.2 = w ++ comps.filterMap writeOf := by
  induction comps generalizing t k w with
  | nil => simp
  | cons c rest ih =>
    cases hc : c.2 with
    | ok v => simp [joinStep, hc, ih, writeOf]
    | error e => simp [joinStep, hc, ih, writeOf]

theorem canonicalComps_fst {α : Type} (numB : ℕ)
    (outcomes : ℕ → BatchDelivery α) :
    (canonicalComps numB outcomes).map Prod.fst = List.range numB := by
  simp [canonicalComps, List.map_map, Function.comp_def]

theorem comps_fst_nodup {α : Type} {numB : ℕ}
    {outcomes : ℕ → BatchDelivery α} {comps : List (ℕ × BatchDelivery α)}
    (hperm : comps.Perm (canonicalComps numB outcomes)) :
    (comps.map Prod.fst).Nodup := by
  have h := (hperm.map Prod.fst).nodup_iff
  rw [canonicalComps_fst] at h
  exact h.mpr (List.nodup_range numB)

theorem comps_find {α : Type} {numB : ℕ}
    {outcomes : ℕ → BatchDelivery α} {comps : List (ℕ × BatchDelivery α)}
    (hperm : comps.Perm (canonicalComps numB outcomes))
    (i : ℕ) (hi : i < numB) :
    comps.find? (fun c => c.1 == i) = some (i, outcomes i) := by
  have hmem : (i, outcomes i) ∈ comps := by
    apply hperm.mem_iff.mpr
    simp only [canonicalComps]
    exact List.mem_map_of_mem _ (List.mem_range.mpr hi)
  have hsome : (comps.find? (fun c => c.1 == i)).isSome := by
    rw [List.find?_isSome]
    exact ⟨(i, outcomes i), hmem, by simp⟩
  obtain ⟨c, hc⟩ := Option.isSome_iff_exists.mp hsome
  have hcp := List.find?_some hc
  have hcm := List.mem_of_find?_eq_some hc
  have hcm' : c ∈ canonicalComps numB outcomes := hperm.mem_iff.mp hcm
  simp only [canonicalComps, List.mem_map, List.mem_range] at hcm'
  obtain ⟨j, _, hj⟩ := hcm'
  simp only [beq_iff_eq] at hcp
  rw [hc]
  rw [← hj]
  have : j = i := by rw [← hj] at hcp; exact hcp
  rw [this]

/-- C2: The final concatenation list is built strictly in ascending
batch-index order, independent of the order in which batch futures complete:
for every permutation `comps` of the canonical completion list, the
segment-table entry for batch `i` is the outcome returned by the worker for
batch `i` (null if it raised), the concatenation entries are the non-null
outcomes in ascending batch-index order, and every null slot is skipped with
one warning instead of aborting the job (the construction is total). -/
theorem segment_table_order {α : Type} (numB : ℕ)
    (outcomes : ℕ → BatchDelivery α) (comps : List (ℕ × BatchDelivery α))
    (hperm : comps.Perm (canonicalComps numB outcomes)) :
    (joinLoop numB comps).1 =
      (List.range numB).map (fun i => resolvedSlot (outcomes i)) ∧
    buildConcatList (joinLoop numB comps).1 =
      ((List.range numB).filterMap (fun i => resolvedSlot (outcomes i)),
       (List.range numB).countP (fun i => (resolvedSlot (outcomes i)).isNone)) := by
  have htable : (joinLoop numB comps).1 =
      (List.range numB).map (fun i => resolvedSlot (outcomes i)) := by
    apply List.ext_getElem?
    intro i
    by_cases hi : i < numB
    · rw [joinLoop, joinGo_get comps _ 0 [] (comps_fst_nodup hperm) i
        (by simpa using hi)]
      rw [comps_find hperm i hi]
      cases ho : outcomes i with
      | ok v =>
        simp [List.getElem?_map, List.getElem?_range hi, ho, resolvedSlot]
      | error e =>
        simp [List.getElem?_replicate, hi, List.getElem?_range hi, ho,
          resolvedSlot]
    · have h1 : (joinLoop numB comps).1.length ≤ i := by
        rw [joinLoop, joinGo_length]; simpa using Nat.le_of_not_lt hi
      have h2 : ((List.range numB).map
          (fun i => resolvedSlot (outcomes i))).length ≤ i := by
        simpa using Nat.le_of_not_lt hi
      rw [List.getElem?_eq_none h1, List.getElem?_eq_none h2]
  refine ⟨htable, ?_⟩
  rw [htable, buildConcatList_eq, List.filterMap_map, List.countP_map]
  rfl

/-- Witness for C2 at `numB = 2` with a reversed completion order. -/
theorem segment_table_order_witness :
    (joinLoop 2 [(1, Except.ok (some "b")), (0, Except.ok (none : Option String))]).1 =
      (List.range 2).map
        (fun i => resolvedSlot
          (if i = 0 then Except.ok none else Except.ok (some "b"))) :=
  (segment_table_order 2
    (fun i => if i = 0 then Except.ok none else Except.ok (some "b"))
    [(1, Except.ok (some "b")), (0, Except.ok none)]
    (List.Perm.swap ((0 : ℕ), Except.ok (none : Option String))
      ((1 : ℕ), Except.ok (some "b")) [])).1

/-- C10: In the join loop, each segment-table slot is written at most once
and only by a future that resolved without raising; a raising worker leaves
its slot null; `batches_completed` equals the number of futures that resolved
without raising, is not incremented for raising workers, and never exceeds the
number of batches. -/
theorem join_loop_writes {α : Type} (numB : ℕ)
    (outcomes : ℕ → BatchDelivery α) (comps : List (ℕ × BatchDelivery α))
    (hperm : comps.Perm (canonicalComps numB outcomes)) :
    (joinLoop numB comps).2.2 = comps.filterMap writeOf ∧
    (∀ i, ((joinLoop numB comps).2.2).count i ≤ 1) ∧
    (∀ i, i ∈ (joinLoop numB comps).2.2 → deliveryOk (outcomes i) = true) ∧
    (∀ i, i < numB → outcomes i = .error () →
      (joinLoop numB comps).1[i]? = some none) ∧
    (joinLoop numB comps).2.1 =
      (List.range numB).countP (fun i => deliveryOk (outcomes i)) ∧
    (joinLoop numB comps).2.1 ≤ numB := by
  have hlog : (joinLoop numB comps).2.2 = comps.filterMap writeOf :=
    joinGo_log comps _ 0 []
  have hnd := comps_fst_nodup hperm
  have hsub : ∀ w : List (ℕ × BatchDelivery α),
      (w.filterMap writeOf).Sublist (w.map Prod.fst) := by
    intro w
    induction w with
    | nil => simp
    | cons c rest ih =>
      cases hc : c.2 with
      | ok v =>
        simpa [writeOf, hc] using ih.cons₂ c.1
      | error e =>
        simpa [writeOf, hc] using ih.cons c.1
  refine ⟨hlog, ?_, ?_, ?_, ?_, ?_⟩
  · intro i
    rw [hlog]
    calc (comps.filterMap writeOf).count i
        ≤ (comps.map Prod.fst).count i := (hsub comps).count_le i
      _ ≤ 1 := List.nodup_iff_count_le_one.mp hnd i
  · intro i hi
    rw [hlog] at hi
    simp only [List.mem_filterMap] at hi
    obtain ⟨c, hcm, hcw⟩ := hi
    have hcm' : c ∈ canonicalComps numB outcomes := hperm.mem_iff.mp hcm
    simp only [canonicalComps, List.mem_map, List.mem_range] at hcm'
    obtain ⟨j, _, hj⟩ := hcm'
    cases hc : c.2 with
    | ok v =>
      simp only [writeOf, hc] at hcw
      have : c.1 = i := by simpa using hcw
      have : outcomes i = .ok v := by
        rw [← this, ← hc, ← hj]
      rw [this]; rfl
    | error e => simp [writeOf, hc] at hcw
  · intro i hi herr
    rw [joinLoop, joinGo_get comps _ 0 [] hnd i (by simpa using hi),
      comps_find hperm i hi, herr]
    simp [List.getElem?_replicate, hi]
  · have := joinGo_counter comps (List.replicate numB none) 0 []
    rw [joinLoop, this]
    have hcount := hperm.countP_eq (fun c => deliveryOk c.2)
    rw [hcount]
    simp [canonicalComps, List.countP_map, Function.comp_def]
  · have := joinGo_counter comps (List.replicate numB none) 0 []
    rw [joinLoop, this]
    have hcount := hperm.countP_eq (fun c => deliveryOk c.2)
    rw [hcount]
    calc 0 + (canonicalComps numB outcomes).countP (fun c => deliveryOk c.2)
        ≤ (canonicalComps numB outcomes).length :=
          by simpa using List.countP_le_length _
      _ = numB := by simp [canonicalComps]

/-- Witness for C10 at `numB = 2` where batch 0's worker raises. -/
theorem join_loop_writes_witness :
    (joinLoop 2 [(1, Except.ok (some "b")),
      (0, (Except.error () : BatchDelivery String))]).2.1 =
      (List.range 2).countP
        (fun i => deliveryOk
          (if i = 0 then (Except.error () : BatchDelivery String)
           else Except.ok (some "b"))) :=
  (join_loop_writes 2
    (fun i => if i = 0 then (Except.error () : BatchDelivery String)
      else Except.ok (some "b"))
    [(1, Except.ok (some "b")), (0, Except.error ())]
    (List.Perm.swap ((0 : ℕ), (Except.error () : BatchDelivery String))
      ((1 : ℕ), Except.ok (some "b")) [])).2.2.2.2.1

/-- C5: For every non-empty list of processed frame files, the reassembly
edit-list orders frames ascending by the timestamp `(sequenceNumber - 1)/fps`
derived from the parsed embedded sequence number — it is a sorted permutation
of the parsed entries, whatever the lexical order of the (possibly
non-zero-padded or reordered) file names was — and assigns every frame the
duration `1/fps` except the last frame, which gets duration `0`. -/
theorem reassembly_edit_list (fps : ℚ) (files : List String)
    (hne : files ≠ []) :
    List.Sorted tsLE (sortedFrames fps files) ∧
    (sortedFrames fps files).Perm (frameEntries fps files) ∧
    (∀ e ∈ sortedFrames fps files,
      ∃ n, parseFrameNum e.1 = some n ∧ e.2 = ((n : ℚ) - 1) / fps) ∧
    (editList fps files).map Prod.fst = (sortedFrames fps files).map Prod.fst ∧
    (∀ i, i + 1 < (editList fps files).length →
      ((editList fps files)[i]?).map Prod.snd = some (1 / fps)) ∧
    ((editList fps files) ≠ [] →
      ((editList fps files)[(editList fps files).length - 1]?).map Prod.snd
        = some 0) := by
  have hlen : (editList fps files).length = (sortedFrames fps files).length := by
    simp [editList]
  refine ⟨List.sorted_insertionSort tsLE _, List.perm_insertionSort tsLE _,
    ?_, ?_, ?_, ?_⟩
  · intro e he
    have he' : e ∈ frameEntries fps files :=
      (List.perm_insertionSort tsLE _).mem_iff.mp he
    simp only [frameEntries, List.mem_filterMap] at he'
    obtain ⟨fp, _, hfp⟩ := he'
    cases hp : parseFrameNum fp with
    | none => rw [hp] at hfp; simp at hfp
    | some n =>
      rw [hp] at hfp
      have hfp' : (fp, ((n : ℚ) - 1) / fps) = e := by simpa using hfp
      refine ⟨n, ?_, ?_⟩
      · rw [← hfp']; exact hp
      · rw [← hfp']
  · simp only [editList, List.map_map]
    have : (Prod.fst ∘ fun p : ℕ × String × ℚ =>
        (p.2.1, if p.1 < (sortedFrames fps files).length - 1
          then 1 / fps else 0)) = (Prod.fst ∘ Prod.snd) := by
      funext p
      rfl
    rw [this, ← List.map_map, List.enum_map_snd]
  · intro i hi
    rw [hlen] at hi
    have hi' : i < (sortedFrames fps files).length := by omega
    simp only [editList, List.getElem?_map, List.getElem?_enum,
      List.getElem?_eq_getElem hi', Option.map_some']
    rw [if_pos (by omega)]
  · intro hne'
    rw [hlen]
    have hpos : 0 < (sortedFrames fps files).length := by
      rw [← hlen]
      exact List.length_pos.mpr hne'
    simp only [editList, List.getElem?_map, List.getElem?_enum]
    rw [List.getElem?_eq_getElem (by omega : (sortedFrames fps files).length - 1
      < (sortedFrames fps files).length)]
    simp only [Option.map_some']
    rw [if_neg (by omega)]

/-- Witness for C5 at the concrete input `fps = 24`,
`files = ["frame_10.png", "frame_2.png"]` (non-zero-padded names whose
lexical order differs from their numeric order; `files ≠ []` discharged). -/
theorem reassembly_edit_list_witness :
    (["frame_10.png", "frame_2.png"] : List String) ≠ [] ∧
    List.Sorted tsLE (sortedFrames 24 ["frame_10.png", "frame_2.png"]) ∧
    parseFrameNum "frame_10.png" = some 10 ∧
    parseFrameNum "frame_2.png" = some 2 :=
  ⟨by decide,
   (reassembly_edit_list 24 ["frame_10.png", "frame_2.png"] (by decide)).1,
   by decide, by decide⟩

theorem esrganLoop_calls_le (ok : ℕ → Bool) (calls r : ℕ) :
    (esrganLoop ok calls r).1 ≤ calls + r := by
  induction r generalizing calls with
  | zero => simp [esrganLoop]
  | succ m ih =>
    simp only [esrganLoop]
    by_cases h : ok calls = true
    · rw [if_pos h]; omega
    · rw [if_neg h]
      have := ih (calls + 1)
      omega

theorem esrganLoop_success (ok : ℕ → Bool) (r : ℕ) :
    ∀ calls k, k < r → ok (calls + k) = true →
      (∀ j, j < k → ok (calls + j) = false) →
      esrganLoop ok calls r = (calls + k + 1, true) := by
  induction r with
  | zero => intro calls k hk; omega
  | succ m ih =>
    intro calls k hk hok hprev
    by_cases h0 : k = 0
    · subst h0
      simp only [Nat.add_zero] at hok
      simp [esrganLoop, hok]
    · have hc : ok calls = false := by simpa using hprev 0 (by omega)
      simp only [esrganLoop]
      rw [if_neg (by simp [hc])]
      have step := ih (calls + 1) (k - 1) (by omega)
        (by have e : calls + 1 + (k - 1) = calls + k := by omega
            rw [e]; exact hok)
        (by intro j hj
            have e : calls + 1 + j = calls + (j + 1) := by omega
            rw [e]; exact hprev (j + 1) (by omega))
      rw [step]
      have e : calls + 1 + (k - 1) = calls + k := by omega
      rw [e]

theorem esrganLoop_fail (ok : ℕ → Bool) (r : ℕ) :
    ∀ calls, (∀ j, j < r → ok (calls + j) = false) →
      esrganLoop ok calls r = (calls + r, false) := by
  induction r with
  | zero => intro calls _; simp [esrganLoop]
  | succ m ih =>
    intro calls h
    have hc : ok calls = false := by simpa using h 0 (by omega)
    simp only [esrganLoop]
    rw [if_neg (by simp [hc])]
    rw [ih (calls + 1) (by
      intro j hj
      have e : calls + 1 + j = calls + (j + 1) := by omega
      rw [e]; exact h (j + 1) (by omega))]
    have e : calls + 1 + m = calls + (m + 1) := by omega
    rw [e]

theorem countP_replicate_esrgan (n : ℕ) :
    (List.replicate n BatchCall.runEsrgan).countP isEsrganCall = n := by
  induction n with
  | zero => rfl
  | succ m ih => simp [List.replicate_succ, List.countP_cons, isEsrganCall, ih]

theorem do_reassembly_no_esrgan (cfg : BatchConfig) (env : BatchEnv)
    (dur : ℚ) (fps : ℤ) :
    (do_reassembly cfg env dur fps).calls.countP isEsrganCall = 0 := by
  by_cases hempty : env.processedFiles.isEmpty = true
  · by_cases hp : env.placeholderOkNoFrames = true
    · simp [do_reassembly, hempty, hp, List.countP_cons, isEsrganCall]
    · simp [do_reassembly, hempty, hp, List.countP_cons, isEsrganCall]
  · simp [do_reassembly, hempty, List.countP_cons, isEsrganCall]

/-- With at least two extracted frames, the engine is invoked exactly
`(esrganRun env.esrganOk).1` times, whatever completion path follows. -/
theorem processBatch_esrgan_count (cfg : BatchConfig) (env : BatchEnv)
    (startT dur : ℚ) (fps : ℤ) (hge : 2 ≤ env.extractedCount) :
    (processBatch cfg env startT dur fps).calls.countP isEsrganCall =
      (esrganRun env.esrganOk).1 := by
  have hlt : ¬ env.extractedCount < 2 := by omega
  by_cases hfail : (esrganRun env.esrganOk).2 = false
  · by_cases hp : env.placeholderOkFail = true
    · simp [processBatch, hlt, hfail, hp, List.countP_append,
        List.countP_cons, isEsrganCall, countP_replicate_esrgan]
    · simp [processBatch, hlt, hfail, hp, List.countP_append,
        List.countP_cons, isEsrganCall, countP_replicate_esrgan]
  · by_cases h1 : cfg.maxConcurrentBatches = 1
    · simp [processBatch, hlt, hfail, h1, List.countP_append,
        List.countP_cons, isEsrganCall, countP_replicate_esrgan,
        do_reassembly_no_esrgan]
    · by_cases hempty : env.processedFiles.isEmpty = true
      · by_cases hp : env.placeholderOkNoFrames = true
        · simp [processBatch, hlt, hfail, h1, hempty, hp, List.countP_append,
            List.countP_cons, isEsrganCall, countP_replicate_esrgan]
        · simp [processBatch, hlt, hfail, h1, hempty, hp, List.countP_append,
            List.countP_cons, isEsrganCall, countP_replicate_esrgan]
      · simp [processBatch, hlt, hfail, h1, hempty, List.countP_append,
          List.countP_cons, isEsrganCall, countP_replicate_esrgan]

/-- With at least two extracted frames, the run reaches the reassembly phase
(line 312 onward) exactly when some engine attempt succeeded. -/
theorem processBatch_entered (cfg : BatchConfig) (env : BatchEnv)
    (startT dur : ℚ) (fps : ℤ) (hge : 2 ≤ env.extractedCount) :
    (processBatch cfg env startT dur fps).reassemblyEntered =
      (esrganRun env.esrganOk).2 := by
  have hlt : ¬ env.extractedCount < 2 := by omega
  by_cases hfail : (esrganRun env.esrganOk).2 = false
  · by_cases hp : env.placeholderOkFail = true
    · simp [processBatch, hlt, hfail, hp]
    · simp [processBatch, hlt, hfail, hp]
  · have htrue : (esrganRun env.esrganOk).2 = true := by
      simpa using hfail
    by_cases h1 : cfg.maxConcurrentBatches = 1
    · simp [processBatch, hlt, hfail, htrue, h1]
    · by_cases hempty : env.processedFiles.isEmpty = true
      · by_cases hp : env.placeholderOkNoFrames = true
        · simp [processBatch, hlt, hfail, htrue, h1, hempty, hp]
        · simp [processBatch, hlt, hfail, htrue, h1, hempty, hp]
      · simp [processBatch, hlt, hfail, htrue, h1, hempty]

/-- C3 (amended): For every batch with fewer than 2 extracted frames,
`process_batch` never invokes the upscaling engine; when the placeholder
synthesis subprocess succeeds it returns the placeholder (built for the
requested batch duration at the output fps) after deleting both working
directories and reporting the extracted frame count (0 or 1) as progress;
when the placeholder synthesis fails it returns `None` without deleting the
working directories and without reporting progress. -/
theorem frame_check_placeholder (cfg : BatchConfig) (env : BatchEnv)
    (startT dur : ℚ) (fps : ℤ) (hfew : env.extractedCount < 2) :
    (processBatch cfg env startT dur fps).calls.countP isEsrganCall = 0 ∧
    (env.placeholderOkFew = true →
      (processBatch cfg env startT dur fps).ret = .path .placeholderFile ∧
      BatchCall.makePlaceholder dur fps ∈
        (processBatch cfg env startT dur fps).calls ∧
      (processBatch cfg env startT dur fps).removed =
        [.extractionDir, .processedDir] ∧
      (processBatch cfg env startT dur fps).progress =
        [env.extractedCount]) ∧
    (env.placeholderOkFew = false →
      (processBatch cfg env startT dur fps).ret = .failed ∧
      (processBatch cfg env startT dur fps).removed = [] ∧
      (processBatch cfg env startT dur fps).progress = []) := by
  by_cases hp : env.placeholderOkFew = true
  · refine ⟨?_, ?_, ?_⟩
    · simp [processBatch, hfew, hp, List.countP_cons, isEsrganCall]
    · intro _
      refine ⟨?_, ?_, ?_, ?_⟩
      all_goals simp [processBatch, hfew, hp, List.countP_cons, isEsrganCall]
    · intro hcontra
      rw [hp] at hcontra
      cases hcontra
  · have hp' : env.placeholderOkFew = false := by simpa using hp
    refine ⟨?_, ?_, ?_⟩
    · simp [processBatch, hfew, hp', List.countP_cons, isEsrganCall]
    · intro hcontra
      rw [hp'] at hcontra
      cases hcontra
    · intro _
      refine ⟨?_, ?_, ?_⟩
      all_goals simp [processBatch, hfew, hp', List.countP_cons, isEsrganCall]

/-- Witness for the amended C3 at a concrete input (`extractedCount = 1 < 2`
discharged; successful-placeholder clause instantiated). -/
theorem frame_check_placeholder_witness :
    (1 : ℕ) < 2 ∧
    (processBatch ⟨5, []⟩
      ⟨true, 1, true, fun _ => true, true, [], true, true⟩ 0 20 24).ret =
      .path .placeholderFile :=
  ⟨by decide,
   ((frame_check_placeholder ⟨5, []⟩
      ⟨true, 1, true, fun _ => true, true, [], true, true⟩ 0 20 24
      (by decide)).2.1 rfl).1⟩

/-- C3 (counterexample): At the concrete input where one frame was
extracted and the placeholder ffmpeg invocation fails (lines 236–238),
`process_batch` returns `None` — not a placeholder segment — deletes nothing,
and reports no progress, refuting "always returns a placeholder segment …
after deleting the working directories and reporting the extracted frame
count as progress". -/
theorem frame_check_counterexample :
    (processBatch ⟨5, ["-c:v", "libx265", "-pix_fmt", "yuv420p"]⟩
      ⟨true, 1, false, fun _ => true, true, [], true, true⟩ 0 20 24).ret =
      .failed ∧
    (processBatch ⟨5, ["-c:v", "libx265", "-pix_fmt", "yuv420p"]⟩
      ⟨true, 1, false, fun _ => true, true, [], true, true⟩ 0 20 24).removed =
      [] ∧
    (processBatch ⟨5, ["-c:v", "libx265", "-pix_fmt", "yuv420p"]⟩
      ⟨true, 1, false, fun _ => true, true, [], true, true⟩ 0 20 24).progress =
      [] :=
  ⟨rfl, rfl, rfl⟩

/-- C4 (amended): With at least 2 extracted frames the upscaling engine
is invoked at most 3 times and retrying stops at the first success: if
attempt `k < 3` is the first success the engine ran exactly `k + 1` times and
the batch proceeds to the (non-placeholder) reassembly phase; if all 3
attempts fail the engine ran exactly 3 times, reassembly is not entered, and
the batch falls back to the placeholder — with the working directories
deleted when the placeholder synthesis succeeds, while a failing placeholder
synthesis yields `None` with no cleanup. -/
theorem upscale_retry (cfg : BatchConfig) (env : BatchEnv)
    (startT dur : ℚ) (fps : ℤ) (hge : 2 ≤ env.extractedCount) :
    (processBatch cfg env startT dur fps).calls.countP isEsrganCall ≤ 3 ∧
    (∀ k, k < 3 → env.esrganOk k = true →
      (∀ j, j < k → env.esrganOk j = false) →
      (processBatch cfg env startT dur fps).calls.countP isEsrganCall =
        k + 1 ∧
      (processBatch cfg env startT dur fps).reassemblyEntered = true) ∧
    ((∀ j, j < 3 → env.esrganOk j = false) →
      (processBatch cfg env startT dur fps).calls.countP isEsrganCall = 3 ∧
      (processBatch cfg env startT dur fps).reassemblyEntered = false ∧
      (env.placeholderOkFail = true →
        (processBatch cfg env startT dur fps).ret = .path .placeholderFile ∧
        BatchCall.makePlaceholder dur fps ∈
          (processBatch cfg env startT dur fps).calls ∧
        (processBatch cfg env startT dur fps).removed =
          [.extractionDir, .processedDir]) ∧
      (env.placeholderOkFail = false →
        (processBatch cfg env startT dur fps).ret = .failed ∧
        (processBatch cfg env startT dur fps).removed = [])) := by
  have hlt : ¬ env.extractedCount < 2 := by omega
  refine ⟨?_, ?_, ?_⟩
  · rw [processBatch_esrgan_count cfg env startT dur fps hge]
    have := esrganLoop_calls_le env.esrganOk 0 max_attempts
    simpa [esrganRun, max_attempts] using this
  · intro k hk hok hprev
    have hrun : esrganRun env.esrganOk = (k + 1, true) := by
      have := esrganLoop_success env.esrganOk max_attempts 0 k
        (by simpa [max_attempts] using hk) (by simpa using hok)
        (by intro j hj; simpa using hprev j hj)
      simpa [esrganRun] using this
    constructor
    · rw [processBatch_esrgan_count cfg env startT dur fps hge, hrun]
    · rw [processBatch_entered cfg env startT dur fps hge, hrun]
  · intro hall
    have hrun : esrganRun env.esrganOk = (3, false) := by
      have := esrganLoop_fail env.esrganOk max_attempts 0
        (by intro j hj; simpa using hall j (by simpa [max_attempts] using hj))
      simpa [esrganRun, max_attempts] using this
    refine ⟨by rw [processBatch_esrgan_count cfg env startT dur fps hge, hrun],
      by rw [processBatch_entered cfg env startT dur fps hge, hrun], ?_, ?_⟩
    · intro hp
      refine ⟨?_, ?_, ?_⟩
      all_goals simp [processBatch, hlt, hrun, hp]
    · intro hp
      have hp' : env.placeholderOkFail = false := hp
      refine ⟨?_, ?_⟩
      all_goals simp [processBatch, hlt, hrun, hp']

/-- Witness for the amended C4 at a concrete input: 2 frames extracted, the
engine fails twice then succeeds on the third attempt (hypotheses `2 ≤ 2`,
`2 < 3`, `esrganOk 2 = true`, and earlier-attempt failure discharged). -/
theorem upscale_retry_witness :
    (processBatch ⟨5, []⟩
      ⟨true, 2, true, fun k => decide (k = 2), true, ["frame_000001.png"],
        true, true⟩ 0 20 24).calls.countP isEsrganCall = 3 ∧
    (processBatch ⟨5, []⟩
      ⟨true, 2, true, fun k => decide (k = 2), true, ["frame_000001.png"],
        true, true⟩ 0 20 24).reassemblyEntered = true :=
  (upscale_retry ⟨5, []⟩
    ⟨true, 2, true, fun k => decide (k = 2), true, ["frame_000001.png"],
      true, true⟩ 0 20 24 (by decide)).2.1 2 (by decide) (by decide)
    (by intro j hj; interval_cases j <;> decide)

/-- C4 (counterexample): At the concrete input where all three engine
attempts fail and the fallback placeholder synthesis also fails (lines
308–310), the batch returns `None` — not a placeholder segment — and the
working directories are not cleaned up, refuting "the batch falls back to a
placeholder segment and the working directories are cleaned up". -/
theorem upscale_retry_counterexample :
    (processBatch ⟨5, []⟩
      ⟨true, 2, true, fun _ => false, false, [], true, true⟩ 0 20 24).ret =
      .failed ∧
    (processBatch ⟨5, []⟩
      ⟨true, 2, true, fun _ => false, false, [], true, true⟩ 0 20 24).removed =
      [] :=
  ⟨rfl, rfl⟩

theorem filter_replicate_esrgan (n : ℕ) :
    (List.replicate n BatchCall.runEsrgan).filter isConcatCall = [] := by
  induction n with
  | zero => rfl
  | succ m ih => simp [List.replicate_succ, List.filter_cons, isEsrganCall,
      isConcatCall, ih]

/-- C6 (amended): With pool size exactly 1 and a successful upscale, the
batch's outcome is a deferred handle (resolving to `do_reassembly`'s result,
joined later by the coordinator) instead of an immediate path, and the
decoupled reassembly builds the same edit-list as the standard inline path —
but it is not behaviourally equivalent to it: the decoupled concat invocation
appends the hard-coded `-c:v libx264 -pix_fmt yuv420p` after the configured
reassembly encoding arguments (overriding them), while the standard path
appends only `-y`; and on the no-surviving-frames fallback the decoupled task
reports no progress and removes no directory, while the standard path reports
the extracted frame count. -/
theorem decoupled_reassembly (cfg₁ cfgN : BatchConfig) (env : BatchEnv)
    (startT dur : ℚ) (fps : ℤ)
    (h1 : cfg₁.maxConcurrentBatches = 1)
    (hN : cfgN.maxConcurrentBatches ≠ 1)
    (hargs : cfg₁.ffmpegReassemblyArgs = cfgN.ffmpegReassemblyArgs)
    (hge : 2 ≤ env.extractedCount)
    (hsucc : (esrganRun env.esrganOk).2 = true) :
    (processBatch cfg₁ env startT dur fps).ret =
      .deferredHandle (do_reassembly cfg₁ env dur fps).result ∧
    (processBatch cfg₁ env startT dur fps).edits =
      (processBatch cfgN env startT dur fps).edits ∧
    (env.processedFiles ≠ [] →
      (processBatch cfg₁ env startT dur fps).calls.filter isConcatCall =
        [.concatFrames fps (cfg₁.ffmpegReassemblyArgs
          ++ ["-y", "-c:v", "libx264", "-pix_fmt", "yuv420p"])] ∧
      (processBatch cfgN env startT dur fps).calls.filter isConcatCall =
        [.concatFrames fps (cfgN.ffmpegReassemblyArgs ++ ["-y"])]) ∧
    (env.processedFiles = [] →
      (processBatch cfg₁ env startT dur fps).progress = [] ∧
      (do_reassembly cfg₁ env dur fps).removed = [] ∧
      (env.placeholderOkNoFrames = true →
        (processBatch cfgN env startT dur fps).progress =
          [env.extractedCount])) := by
  have hlt : ¬ env.extractedCount < 2 := by omega
  have hfail : ¬ (esrganRun env.esrganOk).2 = false := by simp [hsucc]
  refine ⟨?_, ?_, ?_, ?_⟩
  · simp [processBatch, hlt, hfail, h1]
  · by_cases hempty : env.processedFiles.isEmpty = true
    · by_cases hp : env.placeholderOkNoFrames = true
      · simp [processBatch, do_reassembly, hlt, hfail, h1, hN, hempty, hp]
      · simp [processBatch, do_reassembly, hlt, hfail, h1, hN, hempty, hp]
    · simp [processBatch, do_reassembly, hlt, hfail, h1, hN, hempty]
  · intro hne
    have hempty : ¬ env.processedFiles.isEmpty = true := by
      simpa [List.isEmpty_iff] using hne
    constructor
    · simp [processBatch, do_reassembly, hlt, hfail, h1, hempty,
        List.filter_append, List.filter_cons, isConcatCall,
        filter_replicate_esrgan]
    · simp [processBatch, hlt, hfail, hN, hempty, List.filter_append,
        List.filter_cons, isConcatCall, filter_replicate_esrgan]
  · intro hnil
    have hempty : env.processedFiles.isEmpty = true := by
      simp [List.isEmpty_iff, hnil]
    refine ⟨?_, ?_, ?_⟩
    · by_cases hp : env.placeholderOkNoFrames = true
      · simp [processBatch, do_reassembly, hlt, hfail, h1, hempty, hp]
      · simp [processBatch, do_reassembly, hlt, hfail, h1, hempty, hp]
    · by_cases hp : env.placeholderOkNoFrames = true
      · simp [do_reassembly, hempty, hp]
      · simp [do_reassembly, hempty, hp]
    · intro hp
      simp [processBatch, hlt, hfail, hN, hempty, hp]

/-- Witness for the amended C6 at a concrete input: pool size 1 vs 5, two
processed frames present, the engine succeeding on its first attempt (all six
hypotheses discharged). -/
theorem decoupled_reassembly_witness :
    (processBatch ⟨1, ["-c:v", "libx265", "-pix_fmt", "yuv420p"]⟩
      ⟨true, 2, true, fun _ => true, true,
        ["frame_000001.png", "frame_000002.png"], true, true⟩
      0 20 24).calls.filter isConcatCall =
      [.concatFrames 24 (["-c:v", "libx265", "-pix_fmt", "yuv420p"]
        ++ ["-y", "-c:v", "libx264", "-pix_fmt", "yuv420p"])] ∧
    (processBatch ⟨5, ["-c:v", "libx265", "-pix_fmt", "yuv420p"]⟩
      ⟨true, 2, true, fun _ => true, true,
        ["frame_000001.png", "frame_000002.png"], true, true⟩
      0 20 24).calls.filter isConcatCall =
      [.concatFrames 24 (["-c:v", "libx265", "-pix_fmt", "yuv420p"]
        ++ ["-y"])] :=
  (decoupled_reassembly ⟨1, ["-c:v", "libx265", "-pix_fmt", "yuv420p"]⟩
    ⟨5, ["-c:v", "libx265", "-pix_fmt", "yuv420p"]⟩
    ⟨true, 2, true, fun _ => true, true,
      ["frame_000001.png", "frame_000002.png"], true, true⟩
    0 20 24 rfl (by decide) rfl (by decide) (by decide)).2.2.1 (by decide)

/-- C6 (counterexample): At concrete inputs (pool size 1 vs 5, same
configuration and environment otherwise), the decoupled and standard
reassembly paths are not behaviourally equivalent: with no surviving
processed frames the decoupled path reports no progress while the standard
path reports the extracted count, and with surviving frames the two paths
issue different concat invocations (the decoupled one appends hard-coded
`-c:v libx264 -pix_fmt yuv420p` after the configured arguments). -/
theorem decoupled_reassembly_counterexample :
    (processBatch ⟨1, ["-c:v", "libx265", "-pix_fmt", "yuv420p"]⟩
      ⟨true, 2, true, fun _ => true, true, [], true, true⟩
      0 20 24).progress ≠
    (processBatch ⟨5, ["-c:v", "libx265", "-pix_fmt", "yuv420p"]⟩
      ⟨true, 2, true, fun _ => true, true, [], true, true⟩
      0 20 24).progress ∧
    (processBatch ⟨1, ["-c:v", "libx265", "-pix_fmt", "yuv420p"]⟩
      ⟨true, 2, true, fun _ => true, true,
        ["frame_000001.png", "frame_000002.png"], true, true⟩
      0 20 24).calls.filter isConcatCall ≠
    (processBatch ⟨5, ["-c:v", "libx265", "-pix_fmt", "yuv420p"]⟩
      ⟨true, 2, true, fun _ => true, true,
        ["frame_000001.png", "frame_000002.png"], true, true⟩
      0 20 24).calls.filter isConcatCall := by
  constructor
  · decide
  · decide

/-- Under `allOk`, anything a batch creates and does not remove is exactly
the segment the batch hands to the job (which the job deletes at the end on
its success path). -/
theorem processBatch_cleanup (cfg : BatchConfig) (env : BatchEnv)
    (startT dur : ℚ) (fps : ℤ) (hok : BatchEnv.allOk cfg env) :
    ∀ a, a ∈ (processBatch cfg env startT dur fps).created →
      a ∉ (processBatch cfg env startT dur fps).removed →
      resolveReturn (processBatch cfg env startT dur fps).ret = some a := by
  obtain ⟨hfew, hfail, hnof, hser⟩ := hok
  intro a ha hna
  by_cases hlt : env.extractedCount < 2
  · simp [processBatch, hlt, hfew] at ha hna ⊢
    rcases ha with h | h | h
    · exact absurd h hna.1
    · exact absurd h hna.2
    · simp [h, resolveReturn]
  · by_cases hrun : (esrganRun env.esrganOk).2 = false
    · simp [processBatch, hlt, hrun, hfail] at ha hna ⊢
      rcases ha with h | h | h
      · exact absurd h hna.1
      · exact absurd h hna.2
      · simp [h, resolveReturn]
    · by_cases h1 : cfg.maxConcurrentBatches = 1
      · have hne : env.processedFiles ≠ [] := hser h1
        have hempty : ¬ env.processedFiles.isEmpty = true := by
          simpa [List.isEmpty_iff] using hne
        by_cases hcat : env.concatOk = true
        · simp [processBatch, do_reassembly, hlt, hrun, h1, hempty, hcat]
            at ha hna ⊢
          rcases ha with h | h | h | h | h
          · exact absurd h hna.2.2.2
          · exact absurd h hna.1
          · exact absurd h hna.2.2.1
          · exact absurd h hna.2.1
          · simp [h, resolveReturn]
        · have hcat' : env.concatOk = false := by simpa using hcat
          simp [processBatch, do_reassembly, hlt, hrun, h1, hempty, hcat']
            at ha hna ⊢
          rcases ha with h | h | h | h
          · exact absurd h hna.2.2.2
          · exact absurd h hna.1
          · exact absurd h hna.2.2.1
          · exact absurd h hna.2.1
      · by_cases hempty : env.processedFiles.isEmpty = true
        · simp [processBatch, hlt, hrun, h1, hempty, hnof] at ha hna ⊢
          rcases ha with h | h | h
          · exact absurd h hna.1
          · exact absurd h hna.2
          · simp [h, resolveReturn]
        · by_cases hcat : env.concatOk = true
          · simp [processBatch, hlt, hrun, h1, hempty, hcat] at ha hna ⊢
            rcases ha with h | h | h | h
            · exact absurd h hna.2.1
            · exact absurd h hna.2.2
            · exact absurd h hna.1
            · simp [h, resolveReturn]
          · have hcat' : env.concatOk = false := by simpa using hcat
            simp [processBatch, hlt, hrun, h1, hempty, hcat'] at ha hna ⊢
            rcases ha with h | h | h
            · exact absurd h hna.2.1
            · exact absurd h hna.2.2
            · exact absurd h hna.1

/-- C9 (amended): When every external placeholder synthesis succeeds (and,
in serial-pool mode, at least one processed frame survives per batch), and
the job-level concatenation and audio merge both succeed, every temporary
artifact of every batch and of the job is deleted before `process_video`
returns.  On the failure paths this does not hold: a failing job-level
concatenation leaves the segment-list file (and the segment files)
undeleted, and a failing audio merge leaves the segment-list file and the
audio-less intermediate undeleted, because both handlers `return` before the
cleanup block. -/
theorem job_cleanup (cfg : BatchConfig) (venv : VideoEnv) (convCreated : Bool)
    (plan : List (ℚ × ℚ)) (fps : ℤ)
    (hok : ∀ i, i < plan.length → BatchEnv.allOk cfg (venv.batchEnvs i)) :
    (venv.concatJobOk = true → venv.mergeOk = true →
      jobLeftovers cfg venv convCreated plan fps = []) ∧
    (venv.concatJobOk = false →
      JobArtifact.segmentsListFile ∈
        jobLeftovers cfg venv convCreated plan fps) ∧
    (venv.concatJobOk = true → venv.mergeOk = false →
      JobArtifact.segmentsListFile ∈
        jobLeftovers cfg venv convCreated plan fps ∧
      JobArtifact.noAudioFile ∈
        jobLeftovers cfg venv convCreated plan fps) := by
  have htrace : ∀ p ∈ jobTraces cfg venv plan fps,
      p.1 < plan.length ∧
      p.2 = processBatch cfg (venv.batchEnvs p.1)
        (plan[p.1]!).1 (plan[p.1]!).2 fps := by
    intro p hp
    simp only [jobTraces, List.mem_map] at hp
    obtain ⟨q, hq, hpq⟩ := hp
    obtain ⟨i, x⟩ := q
    obtain ⟨hi, hx⟩ := List.mem_enum hq
    constructor
    · rw [← hpq]; exact hi
    · rw [← hpq]
      simp only
      rw [hx]
      rw [getElem!_pos plan i hi]
  refine ⟨?_, ?_, ?_⟩
  · intro hc hm
    have hrem_eq : jobRemoved cfg venv convCreated plan fps =
        ((jobTraces cfg venv plan fps).flatMap
          (fun p => p.2.removed.map (JobArtifact.batchArt p.1))
        ++ (if convCreated then [JobArtifact.convertedFile] else []))
        ++ ((jobSegments cfg venv plan fps).reduceOption
            ++ [JobArtifact.segmentsListFile, JobArtifact.noAudioFile]) := by
      rw [jobRemoved, hc, hm]
      simp
    rw [jobLeftovers, List.filter_eq_nil_iff]
    intro a ha
    simp only [decide_eq_true_eq, not_not]
    rw [hrem_eq]
    simp only [jobCreated, List.mem_append] at ha
    rcases ha with ((hfm | hconv) | hlist) | hnoaud
    · -- an artifact created by some batch
      rw [List.mem_flatMap] at hfm
      obtain ⟨p, hp, hart⟩ := hfm
      obtain ⟨hilt, hpe⟩ := htrace p hp
      rw [List.mem_map] at hart
      obtain ⟨art, hartc, haeq⟩ := hart
      by_cases hrem : art ∈ p.2.removed
      · -- removed by the batch itself
        refine List.mem_append.mpr (Or.inl (List.mem_append.mpr (Or.inl ?_)))
        rw [List.mem_flatMap]
        exact ⟨p, hp, by rw [← haeq]; exact List.mem_map_of_mem _ hrem⟩
      · -- handed to the job as the batch's segment; removed at lines 619–621
        have hres : resolveReturn p.2.ret = some art := by
          rw [hpe] at hartc hrem ⊢
          exact processBatch_cleanup cfg (venv.batchEnvs p.1) _ _ fps
            (hok p.1 hilt) art hartc hrem
        refine List.mem_append.mpr (Or.inr (List.mem_append.mpr (Or.inl ?_)))
        rw [List.reduceOption_mem_iff]
        simp only [jobSegments, List.mem_map]
        exact ⟨p, hp, by rw [hres, Option.map_some', haeq]⟩
    · -- the converted intermediate: removed at lines 563–564
      cases hcv : convCreated with
      | false =>
        rw [hcv] at hconv
        simp at hconv
      | true =>
        rw [hcv] at hconv
        simp only [if_true] at hconv
        have haconv : a = JobArtifact.convertedFile := by simpa using hconv
        refine List.mem_append.mpr (Or.inl (List.mem_append.mpr (Or.inr ?_)))
        simp [haconv]
    · -- the segment-list file: removed at lines 622–623
      have halist : a = JobArtifact.segmentsListFile := by simpa using hlist
      refine List.mem_append.mpr (Or.inr (List.mem_append.mpr (Or.inr ?_)))
      simp [halist]
    · -- the audio-less intermediate: removed at lines 624–625
      rw [hc] at hnoaud
      have hanoa : a = JobArtifact.noAudioFile := by simpa using hnoaud
      refine List.mem_append.mpr (Or.inr (List.mem_append.mpr (Or.inr ?_)))
      simp [hanoa]
  · intro hc
    have hrem_eq : jobRemoved cfg venv convCreated plan fps =
        (jobTraces cfg venv plan fps).flatMap
          (fun p => p.2.removed.map (JobArtifact.batchArt p.1))
        ++ (if convCreated then [JobArtifact.convertedFile] else []) := by
      rw [jobRemoved, hc]
      simp
    rw [jobLeftovers, List.mem_filter]
    refine ⟨by simp [jobCreated], ?_⟩
    simp only [decide_eq_true_eq]
    rw [hrem_eq]
    intro hmem
    rcases List.mem_append.mp hmem with hfm | hconv
    · rw [List.mem_flatMap] at hfm
      obtain ⟨p, _, hart⟩ := hfm
      rw [List.mem_map] at hart
      obtain ⟨art, _, haeq⟩ := hart
      cases haeq
    · cases hcv : convCreated with
      | false =>
        rw [hcv] at hconv
        simp at hconv
      | true =>
        rw [hcv] at hconv
        simp at hconv
  · intro hc hm
    have hrem_eq : jobRemoved cfg venv convCreated plan fps =
        (jobTraces cfg venv plan fps).flatMap
          (fun p => p.2.removed.map (JobArtifact.batchArt p.1))
        ++ (if convCreated then [JobArtifact.convertedFile] else []) := by
      rw [jobRemoved, hc, hm]
      simp
    have hnotmem : ∀ b : JobArtifact,
        b = JobArtifact.segmentsListFile ∨ b = JobArtifact.noAudioFile →
        b ∉ jobRemoved cfg venv convCreated plan fps := by
      intro b hb hmem
      rw [hrem_eq] at hmem
      rcases List.mem_append.mp hmem with hfm | hconv
      · rw [List.mem_flatMap] at hfm
        obtain ⟨p, _, hart⟩ := hfm
        rw [List.mem_map] at hart
        obtain ⟨art, _, haeq⟩ := hart
        rcases hb with hb | hb <;> rw [hb] at haeq <;> cases haeq
      · cases hcv : convCreated with
        | false =>
          rw [hcv] at hconv
          simp at hconv
        | true =>
          rw [hcv] at hconv
          have hbconv : b = JobArtifact.convertedFile := by simpa using hconv
          rcases hb with hb | hb <;> rw [hb] at hbconv <;> simp at hbconv
    constructor
    · rw [jobLeftovers, List.mem_filter]
      refine ⟨by simp [jobCreated], ?_⟩
      simp only [decide_eq_true_eq]
      exact hnotmem _ (Or.inl rfl)
    · rw [jobLeftovers, List.mem_filter]
      refine ⟨by simp [jobCreated, hc], ?_⟩
      simp only [decide_eq_true_eq]
      exact hnotmem _ (Or.inr rfl)

/-- Witness for the amended C9: a one-batch job (`plan = [(0, 20)]`) with all
placeholder syntheses succeeding and both job-level steps succeeding leaves
no temporary artifact (all hypotheses discharged at the concrete input). -/
theorem job_cleanup_witness :
    jobLeftovers ⟨5, []⟩
      ⟨fun _ => ⟨true, 0, true, fun _ => true, true, [], true, true⟩,
        true, true⟩
      false [(0, 20)] 24 = [] :=
  (job_cleanup ⟨5, []⟩
    ⟨fun _ => ⟨true, 0, true, fun _ => true, true, [], true, true⟩,
      true, true⟩
    false [(0, 20)] 24
    (fun _ _ => ⟨rfl, rfl, rfl, fun h => absurd h (by decide)⟩)).1 rfl rfl

/-- C9 (counterexample): At a concrete one-batch job whose batch cleanly
produced a placeholder segment but whose job-level concatenation fails
(lines 588–590 `return` early), the placeholder segment file and the
job-level segment list are still present when `process_video` returns —
temporary artifacts are not deleted on this failure path. -/
theorem job_cleanup_counterexample :
    jobLeftovers ⟨5, []⟩
      ⟨fun _ => ⟨true, 0, true, fun _ => true, true, [], true, true⟩,
        false, true⟩
      false [(0, 20)] 24 =
      [JobArtifact.batchArt 0 .placeholderFile,
       JobArtifact.segmentsListFile] := by
  decide

end EsrganEvup
